import Mathlib

/-!
Verification of the devops task-runner engine.

This file gives a shallow embedding of the command execution and
orchestration core of the repository: the executed-command result type,
the environment merge, `Operation.Run` with its fail-fast versus
collect-all failure policy, the project-definition validator
`ProjectDefinition.ValidateTo` with its `validateProjectName` format
checks, and the context helpers `WithContext` / `FromContext`, together
with theorems settling the specification claims about them.

Modelling conventions:
- Go strings are Lean `String`s; lengths are counted in characters,
  which coincides with Go byte length on ASCII input.
- `unicode.IsLetter` and `unicode.IsSpace` are embedded by their ASCII
  restriction (`goIsLetter`, `goIsSpace`).
- A Go slice that distinguishes `nil` from an empty slice is embedded as
  `Option (List _)`; a Go `map[string]string` is embedded as an
  association list in iteration order.
- The executor collaborator is an oracle `String → Result × Option String`
  mapping a command to its result and optional transport error; calls the
  engine makes on the executor are recorded as an `Event` trace.
- Terminal writes are returned as structured report lines; logging is a
  collaborator concern and is not modelled.
-/

namespace DevOps

/-- A single quote character, used to build message strings. -/
def sq : String := String.mk [Char.ofNat 39]

/-- Result of one executed command, from `executor.Result` in the Go
source (fields `Stdout`, `Stderr`, `ExitCode`). `ExitCode = -1` marks a
command that never ran to completion. -/
structure Result where
  Stdout : String
  Stderr : String
  ExitCode : Int
  deriving DecidableEq, Repr

/-- One named operation of the task definition, from `config.Operation`:
`FailFast bool`, `Env map[string]string`, `Steps []string`. `Env` is
embedded as an association list in iteration order; `Steps` is `none`
when the Go slice is nil. -/
structure Operation where
  FailFast : Bool
  Env : List (String × String)
  Steps : Option (List String)
  deriving DecidableEq, Repr

/-- The codebase section of the task definition, from `config.Codebase`.
`Dependencies` is `none` when the Go slice is nil. -/
structure Codebase where
  Language : String
  Dependencies : Option (List String)
  Install : Operation
  Test : Operation
  Build : Operation
  deriving DecidableEq, Repr

/-- The task definition, from `config.ProjectDefinition`. -/
structure ProjectDefinition where
  ID : String
  Name : String
  Version : String
  Description : String
  RepoUrl : String
  Codebase : Codebase
  deriving DecidableEq, Repr

/-- ASCII restriction of Go `unicode.IsLetter`. -/
def goIsLetter (c : Char) : Bool := c.isAlpha

/-- ASCII restriction of Go `unicode.IsSpace`. -/
def goIsSpace (c : Char) : Bool :=
  c = ' ' || c = '\t' || c = '\n' || c = '\x0b' || c = '\x0c' || c = '\r'

/-- First character of a string, as in the Go expression `rune(id[0])`;
the source only evaluates it on non-empty input. -/
def firstChar (s : String) : Char := s.data.headD 'a'

/-- The regular expression `^[a-zA-Z][a-zA-Z0-9_-]*$` from
`validateProjectName`. -/
def matchesNamePattern (s : String) : Bool :=
  match s.data with
  | [] => false
  | c :: cs => c.isAlpha && cs.all (fun x => x.isAlpha || x.isDigit || x = '_' || x = '-')

/-- Embedding of `config.validateProjectName`: checks, in source order,
the length bound, emptiness, first-character-is-letter, absence of
whitespace, and the restricted character set, returning the first
failure message. -/
def validateProjectName (id : String) : Option String :=
  if 30 ≤ id.length then
    some ("ID must be under 30 characters (current: " ++ toString id.length ++ ")")
  else if id = "" then
    some "ID cannot be empty"
  else if ! goIsLetter (firstChar id) then
    some "ID must start with a letter"
  else if id.data.any goIsSpace then
    some "ID cannot contain whitespace"
  else if ! matchesNamePattern id then
    some "ID can only contain letters, numbers, dashes, and underscores"
  else
    none

/-- The five format rules for a project ID, as the specification
enumerates them. -/
inductive NameRule where
  | tooLong
  | isEmpty
  | firstNotLetter
  | whitespace
  | badChar
  deriving DecidableEq, Repr

/-- The short-circuit order claimed by the specification: length, then
emptiness, then first-character-is-letter, then no-whitespace, then
character-set. -/
def ruleOrder : List NameRule :=
  [NameRule.tooLong, NameRule.isEmpty, NameRule.firstNotLetter,
   NameRule.whitespace, NameRule.badChar]

/-- Whether the given ID violates a given rule, each rule judged
independently of the others. -/
def ruleViolated (id : String) : NameRule → Bool
  | NameRule.tooLong => decide (30 ≤ id.length)
  | NameRule.isEmpty => decide (id = "")
  | NameRule.firstNotLetter => ! goIsLetter (firstChar id)
  | NameRule.whitespace => id.data.any goIsSpace
  | NameRule.badChar => ! matchesNamePattern id

/-- The message naming each specific violated rule. -/
def ruleMessage (id : String) : NameRule → String
  | NameRule.tooLong => "ID must be under 30 characters (current: " ++ toString id.length ++ ")"
  | NameRule.isEmpty => "ID cannot be empty"
  | NameRule.firstNotLetter => "ID must start with a letter"
  | NameRule.whitespace => "ID cannot contain whitespace"
  | NameRule.badChar => "ID can only contain letters, numbers, dashes, and underscores"

/-- Severity colour of a printed report line, as passed to
`outputs.PrintColoredMessageTo`; `plain` marks the uncoloured separator
line. -/
inductive Color where
  | red
  | green
  | yellow
  | plain
  deriving DecidableEq, Repr

/-- One line of the validation report: the colour requested from the
output collaborator together with the formatted message text. -/
structure OutLine where
  color : Color
  text : String
  deriving DecidableEq, Repr

/-- The trailing separator produced by `outputs.PrintTerminalWideLineTo`
with glyph `=`; the repetition to terminal width is a presentation
concern and is not modelled. -/
def sepLine : OutLine := ⟨Color.plain, "="⟩

/-- Go `%s` formatting of a `[]string` value, as used for the
dependencies line. -/
def fmtStrSlice (xs : List String) : String :=
  "[" ++ String.intercalate " " xs ++ "]"

/-- The fix recorded when the ID fails `validateProjectName`. -/
def fixIdMsg : String :=
  "Use a valid project ID (alphanumeric/dashes/underscores, starts with letter, no whitespace, under 30 chars)"

/-- The ID field check of `ValidateTo`: the printed line and the fixes it
appends. -/
def idCheck (d : ProjectDefinition) : OutLine × List String :=
  if d.ID = "" then
    (⟨Color.red, "[✘] ID is required"⟩, ["Set an ID for the project"])
  else
    match validateProjectName d.ID with
    | some e => (⟨Color.red, "[✘] Invalid ID: " ++ e⟩, [fixIdMsg])
    | none => (⟨Color.green, "[✔] ID: " ++ d.ID⟩, [])

/-- The name field of `ValidateTo`: printed only when non-empty, never a
fix or a warning. -/
def nameLines (d : ProjectDefinition) : List OutLine :=
  if d.Name ≠ "" then [⟨Color.green, "[✔] Name: " ++ d.Name⟩] else []

/-- The repository URL check of `ValidateTo`. -/
def repoCheck (d : ProjectDefinition) : OutLine × List String :=
  if d.RepoUrl = "" then
    (⟨Color.red, "[✘] Repository URL is required"⟩, ["Set a repository URL for the project"])
  else
    (⟨Color.green, "[✔] Repository URL: " ++ d.RepoUrl⟩, [])

/-- The language check of `ValidateTo`. -/
def langCheck (d : ProjectDefinition) : OutLine × List String :=
  if d.Codebase.Language = "" then
    (⟨Color.red, "[✘] Language is required"⟩, ["Set a language in the codebase"])
  else
    (⟨Color.green, "[✔] Language: " ++ d.Codebase.Language⟩, [])

/-- The dependencies line of `ValidateTo`: a warning when the Go slice is
nil, never a fix. -/
def depLine (d : ProjectDefinition) : OutLine :=
  match d.Codebase.Dependencies with
  | some deps => ⟨Color.green, "[✔] Dependencies: " ++ fmtStrSlice deps⟩
  | none => ⟨Color.yellow, "[~] No dependencies defined"⟩

/-- The install steps of `ValidateTo`: printed when present, silent when
nil (optional, no warning). -/
def installLines (d : ProjectDefinition) : List OutLine :=
  match d.Codebase.Install.Steps with
  | some steps => [⟨Color.green, "[✔] Install steps (" ++ toString steps.length ++ ")"⟩]
  | none => []

/-- The test steps check of `ValidateTo`: the printed line and the
suggestions it appends. -/
def testCheck (d : ProjectDefinition) : OutLine × List String :=
  match d.Codebase.Test.Steps with
  | some steps => (⟨Color.green, "[✔] Test steps (" ++ toString steps.length ++ ")"⟩, [])
  | none => (⟨Color.yellow, "[~] No test steps defined"⟩, ["Set test steps in the codebase"])

/-- The build steps check of `ValidateTo`. -/
def buildCheck (d : ProjectDefinition) : OutLine × List String :=
  match d.Codebase.Build.Steps with
  | some steps => (⟨Color.green, "[✔] Build steps (" ++ toString steps.length ++ ")"⟩, [])
  | none => (⟨Color.yellow, "[~] No build steps defined"⟩, ["Set build steps in the codebase"])

/-- The accumulated `fixes` list of `ValidateTo`, in append order. -/
def fixList (d : ProjectDefinition) : List String :=
  (idCheck d).2 ++ (repoCheck d).2 ++ (langCheck d).2

/-- The accumulated `suggestions` list of `ValidateTo`, in append
order. -/
def suggList (d : ProjectDefinition) : List String :=
  (testCheck d).2 ++ (buildCheck d).2

/-- The full report written by `ValidateTo`, in print order: the field
sweep, the separator, the suggestions block, then the fixes block. -/
def reportLines (d : ProjectDefinition) : List OutLine :=
  [(idCheck d).1] ++ nameLines d ++ [(repoCheck d).1, (langCheck d).1, depLine d]
    ++ installLines d ++ [(testCheck d).1, (buildCheck d).1, sepLine]
    ++ (if (suggList d).isEmpty then []
        else ⟨Color.yellow, "Suggestions:"⟩ :: (suggList d).map (fun s => ⟨Color.yellow, "  - " ++ s⟩))
    ++ (if (fixList d).isEmpty then []
        else ⟨Color.red, "Fixes:"⟩ :: (fixList d).map (fun s => ⟨Color.red, "  - " ++ s⟩))

/-- Embedding of `ProjectDefinition.ValidateTo`: the report written to
the sink and the returned error. The error is produced exactly when the
fixes list is non-empty, after the whole field sweep has been printed. -/
def ProjectDefinition.ValidateTo (d : ProjectDefinition) : List OutLine × Option String :=
  if (fixList d).isEmpty then
    (reportLines d, none)
  else
    (reportLines d, some ("found " ++ toString (fixList d).length ++ " required fixes"))

/-- Whether the ID field triggers a required fix: missing, or present but
failing `validateProjectName`. Stated independently of `ValidateTo` for
use in the verdict theorem. -/
def idFixRequired (d : ProjectDefinition) : Bool :=
  d.ID == "" || (validateProjectName d.ID).isSome

/-- Whether the repository URL field triggers a required fix. -/
def repoFixRequired (d : ProjectDefinition) : Bool := d.RepoUrl == ""

/-- Whether the language field triggers a required fix. -/
def langFixRequired (d : ProjectDefinition) : Bool := d.Codebase.Language == ""

/-- Number of fix-required conditions that triggered, counted from the
conditions themselves rather than from the validator. -/
def requiredFixCount (d : ProjectDefinition) : Nat :=
  (if idFixRequired d then 1 else 0) + (if repoFixRequired d then 1 else 0)
    + (if langFixRequired d then 1 else 0)

/-- Observable interaction of `Operation.Run` with its collaborators:
calls on the executor capability (`addEnv`, `exec`), the step-header
print, the forwarded stdout/stderr, and the trailing separator. -/
inductive Event where
  | addEnv (env : List String)
  | exec (cmd : String)
  | print (s : String)
  | out (s : String)
  | errOut (s : String)
  | sep
  deriving DecidableEq, Repr

/-- Whether an event is a call to the environment-installation
capability. -/
def isAddEnvCall : Event → Bool
  | Event.addEnv _ => true
  | _ => false

/-- The commands passed to the executor, in call order. -/
def execCmds (evts : List Event) : List String :=
  evts.filterMap fun e =>
    match e with
    | Event.exec c => some c
    | _ => none

/-- The failure test of the step loop in `Operation.Run`: the Go
condition `err != nil || result.ExitCode != 0` on the pair returned by
`executor.Exec`. -/
def stepFails (exec : String → Result × Option String) (cmd : String) : Bool :=
  (exec cmd).2.isSome || (exec cmd).1.ExitCode != 0

/-- Go rendering of wrapping an error with `%w`: the error text, or the
`fmt` placeholder output for a nil error. -/
def errText : Option String → String
  | some m => m
  | none => "%!w(<nil>)"

/-- The fail-fast error of `Operation.Run`, from the format string
naming the failing command and its exit code and wrapping the underlying
error. -/
def mkFailMsg (step : String) (code : Int) (err : Option String) : String :=
  "error while running " ++ sq ++ step ++ sq ++ " (exit code " ++ toString code ++ "): "
    ++ errText err

/-- Go `%v` formatting of the failed-steps slice in the aggregate
error. -/
def fmtSteps (failed : List String) : String :=
  "[" ++ String.intercalate " " failed ++ "]"

/-- The `KEY=VALUE` entries built from the operation's override map, in
iteration order. -/
def envList (op : Operation) : List String :=
  op.Env.map fun p => p.1 ++ "=" ++ p.2

/-- The merged environment of `Operation.Run`: the ambient snapshot from
`os.Environ()` with the override entries appended after it; duplicate
keys are left in place. When the override map is empty nothing is
appended. -/
def mergedEnv (ambient : List String) (op : Operation) : List String :=
  ambient ++ envList op

/-- The stdout/stderr forwarding after a step: each stream is printed
with a trailing newline when non-empty. -/
def outEvents (r : Result) : List Event :=
  (if r.Stdout ≠ "" then [Event.out (r.Stdout ++ "\n")] else [])
    ++ (if r.Stderr ≠ "" then [Event.errOut (r.Stderr ++ "\n")] else [])

/-- The step loop of `Operation.Run` over the remaining steps, starting
at the given zero-based index: the emitted events, the accumulated
failed steps, and the fail-fast early-return error when one occurred.
On a fail-fast failure the loop returns before the stdout/stderr
forwarding; otherwise a failing step is recorded and execution
continues. -/
def runLoop (failFast : Bool) (exec : String → Result × Option String) :
    Nat → List String → List Event × List String × Option String
  | _, [] => ([], [], none)
  | idx, step :: rest =>
    let result := (exec step).1
    let err := (exec step).2
    let headEvts := [Event.print ("[" ++ toString (idx + 1) ++ "] " ++ step ++ "\n"),
                     Event.exec step]
    if stepFails exec step then
      if failFast then
        (headEvts, [], some (mkFailMsg step result.ExitCode err))
      else
        let r := runLoop failFast exec (idx + 1) rest
        (headEvts ++ outEvents result ++ r.1, step :: r.2.1, r.2.2)
    else
      let r := runLoop failFast exec (idx + 1) rest
      (headEvts ++ outEvents result ++ r.1, r.2.1, r.2.2)

/-- Embedding of `Operation.Run`: installs the merged environment on the
executor with a single `AddEnv` call, runs the step loop, and on normal
loop completion emits the trailing separator and returns the aggregate
error when any step failed. A fail-fast early return propagates before
the separator is printed. -/
def Operation.Run (op : Operation) (exec : String → Result × Option String)
    (ambient : List String) : List Event × Option String :=
  let env := mergedEnv ambient op
  match runLoop op.FailFast exec 0 (op.Steps.getD []) with
  | (evts, _, some e) => (Event.addEnv env :: evts, some e)
  | (evts, failed, none) =>
    if failed.isEmpty then
      (Event.addEnv env :: evts ++ [Event.sep], none)
    else
      (Event.addEnv env :: evts ++ [Event.sep],
       some ("failed to run steps: " ++ fmtSteps failed))

/-- Embedding of `ProjectDefinition.Build`: skips the run entirely (with
a logged warning) when the build step list is empty, otherwise wraps a
failed run. -/
def ProjectDefinition.Build (d : ProjectDefinition) (exec : String → Result × Option String)
    (ambient : List String) : List Event × Option String :=
  if (d.Codebase.Build.Steps.getD []).length = 0 then ([], none)
  else
    match d.Codebase.Build.Run exec ambient with
    | (evts, some e) => (evts, some ("failed to run build steps: " ++ e))
    | (evts, none) => (evts, none)

/-- Embedding of `ProjectDefinition.Test`: skips the run entirely when
the test step list is empty, otherwise wraps a failed run. -/
def ProjectDefinition.Test (d : ProjectDefinition) (exec : String → Result × Option String)
    (ambient : List String) : List Event × Option String :=
  if (d.Codebase.Test.Steps.getD []).length = 0 then ([], none)
  else
    match d.Codebase.Test.Run exec ambient with
    | (evts, some e) => (evts, some ("failed to run test steps: " ++ e))
    | (evts, none) => (evts, none)

/-- A dynamically typed value stored in a Go context, as needed by the
type assertion in `FromContext`: a `ProjectDefinition`, or a value of
some other dynamic type (a string, an integer, a nil interface). -/
inductive CtxVal where
  | defn (d : ProjectDefinition)
  | str (s : String)
  | num (n : Int)
  | nil
  deriving DecidableEq, Repr

/-- A Go context modelled as its chain of `WithValue` entries, most
recent first. -/
def Ctx : Type := List (String × CtxVal)

/-- The context key `configKey` of the config package. -/
def configKey : String := "config"

/-- Embedding of `config.WithContext`: stores the definition under
`configKey`. -/
def WithContext (ctx : Ctx) (d : ProjectDefinition) : Ctx :=
  (configKey, CtxVal.defn d) :: ctx

/-- Go `ctx.Value`: the most recently stored value for the key, if
any. -/
def ctxValue (ctx : Ctx) (k : String) : Option CtxVal :=
  (List.find? (fun p => p.1 == k) ctx).map fun p => p.2

/-- The panic message of `config.FromContext`. -/
def badPathMsg : String := "No root dir found in context, bad code path"

/-- Embedding of `config.FromContext`: the type assertion succeeds only
on a stored `ProjectDefinition`; every other case panics, modelled as
`Except.error`. -/
def FromContext (ctx : Ctx) : Except String ProjectDefinition :=
  match ctxValue ctx configKey with
  | some (CtxVal.defn d) => Except.ok d
  | _ => Except.error badPathMsg

/-- The `RunE` body of the `build` command: reads the definition from
the context (panicking when absent), runs the build, and wraps a
failure. -/
def runBuildCommand (ctx : Ctx) (exec : String → Result × Option String)
    (ambient : List String) : Except String (List Event × Option String) :=
  match FromContext ctx with
  | Except.error m => Except.error m
  | Except.ok cfg =>
    match cfg.Build exec ambient with
    | (evts, some e) => Except.ok (evts, some ("build failed: " ++ e))
    | (evts, none) => Except.ok (evts, none)

/-- The `RunE` body of the `test` command. -/
def runTestCommand (ctx : Ctx) (exec : String → Result × Option String)
    (ambient : List String) : Except String (List Event × Option String) :=
  match FromContext ctx with
  | Except.error m => Except.error m
  | Except.ok cfg =>
    match cfg.Test exec ambient with
    | (evts, some e) => Except.ok (evts, some ("tests failed: " ++ e))
    | (evts, none) => Except.ok (evts, none)

/-- The `RunE` body of the `doctor` command: reads the definition from
the context (panicking when absent) and validates it. -/
def runDoctorCommand (ctx : Ctx) : Except String (List OutLine × Option String) :=
  match FromContext ctx with
  | Except.error m => Except.error m
  | Except.ok cfg =>
    match cfg.ValidateTo with
    | (lines, some e) => Except.ok (lines, some ("validation failed: " ++ e))
    | (lines, none) => Except.ok (lines, none)

/-- One row of `TestDefaultExecutor_Exec` in
`cli/executor/executor_test.go`: the command, the expected exit code,
whether a non-nil error is expected, the expected captured streams, and
whether the row runs under a short timeout. The Go implementation of
`DefaultExecutor.Exec` is not part of this tree; this table is the
behaviour its own test pins down. -/
structure ExecCase where
  command : String
  expectedCode : Int
  expectError : Bool
  expectedOut : String
  expectedErr : String
  timedOut : Bool
  deriving DecidableEq, Repr

/-- The rows of `TestDefaultExecutor_Exec`, in source order. -/
def execTestCases : List ExecCase :=
  [⟨"echo " ++ sq ++ "Hello, World!" ++ sq, 0, false, "Hello, World!\n", "", false⟩,
   ⟨"echo " ++ sq ++ "Hello" ++ sq ++ " >&2", 0, false, "", "Hello\n", false⟩,
   ⟨"echo " ++ sq ++ "stdout" ++ sq ++ " && echo " ++ sq ++ "stderr" ++ sq ++ " >&2",
    0, false, "stdout\n", "stderr\n", false⟩,
   ⟨"false", 1, true, "", "", false⟩,
   ⟨"nonexistentcommand12345", 127, true, "",
    "bash: line 1: nonexistentcommand12345: command not found\n", false⟩,
   ⟨"exit 2", 2, true, "", "", false⟩,
   ⟨"exit 127", 127, true, "", "", false⟩,
   ⟨"echo -e " ++ sq ++ "Line 1\nLine 2\nLine 3" ++ sq, 0, false,
    "Line 1\nLine 2\nLine 3\n", "", false⟩,
   ⟨"echo " ++ sq ++ "Special: !@#$%^&*()" ++ sq, 0, false, "Special: !@#$%^&*()\n", "", false⟩,
   ⟨"sleep 10", -1, true, "", "", true⟩]

/-- Whether a test row is a plain nonzero normal exit: the shell is
launched successfully and terminates normally with a nonzero status
(no missing binary, no cancellation). These are the rows the
nil-error-on-nonzero-exit claim speaks about. -/
def normalNonzeroExit (c : ExecCase) : Bool :=
  c.command == "false" || c.command == "exit 2" || c.command == "exit 127"

/-- A trivial executor oracle: every command succeeds silently. -/
def exec0 : String → Result × Option String := fun _ => (⟨"", "", 0⟩, none)

/-- Oracle for the fail-fast scenario of the specification: `exit 2`
exits with status 2, everything else succeeds. -/
def exec2 : String → Result × Option String :=
  fun c => if c == "exit 2" then (⟨"", "", 2⟩, none) else (⟨"", "", 0⟩, none)

/-- Oracle for the collect-all scenario of the specification: `false`
exits with status 1, everything else succeeds. -/
def exec3 : String → Result × Option String :=
  fun c => if c == "false" then (⟨"", "", 1⟩, none) else (⟨"", "", 0⟩, none)

/-- Oracle under which every command exits with status 1. -/
def execFail : String → Result × Option String := fun _ => (⟨"", "", 1⟩, none)

/-- A small complete project definition used to instantiate theorems
with hypotheses. -/
def sampleDef : ProjectDefinition :=
  ⟨"demo-project", "demo", "1.0.0", "", "https://example.org/demo",
   ⟨"go", some ["go.mod"],
    ⟨false, [], some ["go mod download"]⟩,
    ⟨false, [], none⟩,
    ⟨true, [("CGO_ENABLED", "0")], some ["go build ./..."]⟩⟩⟩

/-- C1, as stated: over the rows of `TestDefaultExecutor_Exec` whose
command is a plain nonzero normal exit, the executor is expected to
return a nil error. This is what the claim asserts of the code; it is
refuted below. -/
theorem c1_counterexample :
    ¬ (∀ c ∈ execTestCases, normalNonzeroExit c = true → c.expectError = false) := by
  decide

/-- C1 (amended): in the executor's own test table, a non-nil error is
expected exactly when the exit code is nonzero. A process that exits
normally with a nonzero status therefore yields both the status in
`exitCode` and a non-nil error; only exit status zero gives a nil
error. -/
theorem c1_error_iff_nonzero_exit :
    ∀ c ∈ execTestCases, c.expectError = (c.expectedCode != 0) := by
  decide

/-- Witness for C1: the amended theorem applied to the `false` row. -/
theorem c1_witness :
    (⟨"false", 1, true, "", "", false⟩ : ExecCase).expectError
      = ((⟨"false", 1, true, "", "", false⟩ : ExecCase).expectedCode != 0) :=
  c1_error_iff_nonzero_exit ⟨"false", 1, true, "", "", false⟩ (by decide)

/-- C7: for every non-empty project ID, `validateProjectName` reports
exactly the first violated rule in the fixed short-circuit order
(length, emptiness, first-character-is-letter, no-whitespace,
character-set), with the message naming that rule, and reports nothing
when no rule is violated. -/
theorem c7_first_violated_rule (id : String) (h : id ≠ "") :
    validateProjectName id = (List.find? (ruleViolated id) ruleOrder).map (ruleMessage id) := by
  by_cases h1 : 30 ≤ id.length <;>
    by_cases h3 : goIsLetter (firstChar id) = true <;>
      by_cases h4 : id.data.any goIsSpace = true <;>
        by_cases h5 : matchesNamePattern id = true <;>
          simp [validateProjectName, ruleOrder, ruleViolated, ruleMessage, List.find?,
                h, h1, h3, h4, h5]

/-- Witness for C7: the theorem applied to the ID `1test`, which starts
with a digit. -/
theorem c7_witness :
    validateProjectName "1test"
      = (List.find? (ruleViolated "1test") ruleOrder).map (ruleMessage "1test") :=
  c7_first_violated_rule "1test" (by decide)

/-- C9: the validator is deterministic in its input; two runs of
`ValidateTo` on the same definition produce identical reports and
verdicts. -/
theorem c9_validate_deterministic (d : ProjectDefinition)
    (r₁ r₂ : List OutLine × Option String)
    (h₁ : r₁ = d.ValidateTo) (h₂ : r₂ = d.ValidateTo) : r₁ = r₂ :=
  h₁.trans h₂.symm

/-- Witness for C9: two runs on the sample definition agree. -/
theorem c9_witness :
    (sampleDef.ValidateTo, sampleDef.ValidateTo).1
      = (sampleDef.ValidateTo, sampleDef.ValidateTo).2 :=
  c9_validate_deterministic sampleDef _ _ rfl rfl

/-- C10: when the context does not carry a `ProjectDefinition` under the
config key, `FromContext` panics (modelled as `Except.error` with the
panic message) rather than returning a zero value, and the build, test
and doctor command bodies, which read the definition first, propagate
that panic. -/
theorem c10_fromContext_requires_definition (ctx : Ctx)
    (exec : String → Result × Option String) (ambient : List String)
    (h : ∀ d : ProjectDefinition, ctxValue ctx configKey ≠ some (CtxVal.defn d)) :
    FromContext ctx = Except.error badPathMsg ∧
    runBuildCommand ctx exec ambient = Except.error badPathMsg ∧
    runTestCommand ctx exec ambient = Except.error badPathMsg ∧
    runDoctorCommand ctx = Except.error badPathMsg := by
  have hf : FromContext ctx = Except.error badPathMsg := by
    unfold FromContext
    cases hv : ctxValue ctx configKey with
    | none => rfl
    | some v =>
      cases v with
      | defn d => exact absurd hv (h d)
      | str s => rfl
      | num n => rfl
      | nil => rfl
  exact ⟨hf, by simp [runBuildCommand, hf], by simp [runTestCommand, hf],
         by simp [runDoctorCommand, hf]⟩

/-- Witness for C10: a context holding a value of the wrong dynamic type
under the config key, as in the `context with wrong type` test case. -/
theorem c10_witness :
    FromContext [(configKey, CtxVal.str "not a ProjectDefinition")]
        = Except.error badPathMsg ∧
    runBuildCommand [(configKey, CtxVal.str "not a ProjectDefinition")] exec0 []
        = Except.error badPathMsg ∧
    runTestCommand [(configKey, CtxVal.str "not a ProjectDefinition")] exec0 []
        = Except.error badPathMsg ∧
    runDoctorCommand [(configKey, CtxVal.str "not a ProjectDefinition")]
        = Except.error badPathMsg :=
  c10_fromContext_requires_definition _ exec0 []
    (by intro d hd; simp [ctxValue, List.find?] at hd)

/-- The validator's accumulated fixes list has exactly one entry per
triggered fix-required condition. -/
theorem fixList_length (d : ProjectDefinition) :
    (fixList d).length = requiredFixCount d := by
  unfold fixList requiredFixCount idFixRequired repoFixRequired langFixRequired
    idCheck repoCheck langCheck
  by_cases h1 : d.ID = "" <;>
    by_cases h2 : d.RepoUrl = "" <;>
      by_cases h3 : d.Codebase.Language = "" <;>
        cases hv : validateProjectName d.ID <;>
          simp [h1, h2, h3, hv]

/-- C6: validation fails, returning an error naming the count of
required fixes, exactly when at least one fix-required condition
triggered; warnings alone pass. The field sweep always completes: the
language line, the build-steps line and the trailing separator appear in
the report regardless of the verdict. -/
theorem c6_validate_verdict (d : ProjectDefinition) :
    (d.ValidateTo.2 =
       if 0 < requiredFixCount d then
         some ("found " ++ toString (requiredFixCount d) ++ " required fixes")
       else none) ∧
    (langCheck d).1 ∈ d.ValidateTo.1 ∧
    (buildCheck d).1 ∈ d.ValidateTo.1 ∧
    sepLine ∈ d.ValidateTo.1 := by
  refine ⟨?_, ?_, ?_, ?_⟩
  · unfold ProjectDefinition.ValidateTo
    by_cases h : (fixList d).isEmpty
    · have h0 : requiredFixCount d = 0 := by
        rw [← fixList_length]
        simp [List.isEmpty_iff] at h
        simp [h]
      simp [h, h0]
    · have hpos : 0 < requiredFixCount d := by
        rw [← fixList_length]
        rcases hf : fixList d with _ | ⟨a, l⟩
        · rw [hf] at h; simp at h
        · simp
      simp [h, hpos, fixList_length]
  · by_cases h : (fixList d).isEmpty <;>
      simp [ProjectDefinition.ValidateTo, h, reportLines]
  · by_cases h : (fixList d).isEmpty <;>
      simp [ProjectDefinition.ValidateTo, h, reportLines]
  · by_cases h : (fixList d).isEmpty <;>
      simp [ProjectDefinition.ValidateTo, h, reportLines]

/-- Commands extracted from concatenated traces. -/
@[simp] theorem execCmds_append (a b : List Event) :
    execCmds (a ++ b) = execCmds a ++ execCmds b := by
  simp [execCmds]

/-- The empty trace holds no executor call. -/
@[simp] theorem execCmds_nil : execCmds [] = [] := rfl

/-- A print event is not an executor call. -/
@[simp] theorem execCmds_cons_print (s : String) (evts : List Event) :
    execCmds (Event.print s :: evts) = execCmds evts := rfl

/-- An exec event contributes its command. -/
@[simp] theorem execCmds_cons_exec (c : String) (evts : List Event) :
    execCmds (Event.exec c :: evts) = c :: execCmds evts := rfl

/-- An environment-installation event is not an execute call. -/
@[simp] theorem execCmds_cons_addEnv (e : List String) (evts : List Event) :
    execCmds (Event.addEnv e :: evts) = execCmds evts := rfl

/-- A separator event is not an executor call. -/
@[simp] theorem execCmds_cons_sep (evts : List Event) :
    execCmds (Event.sep :: evts) = execCmds evts := rfl

/-- Forwarded output events contain no executor call. -/
@[simp] theorem execCmds_outEvents (r : Result) : execCmds (outEvents r) = [] := by
  unfold outEvents
  by_cases h1 : r.Stdout = "" <;> by_cases h2 : r.Stderr = "" <;> simp [h1, h2, execCmds]

/-- The separator is never emitted inside the step loop. -/
theorem sep_notin_outEvents (r : Result) : Event.sep ∉ outEvents r := by
  unfold outEvents
  by_cases h1 : r.Stdout = "" <;> by_cases h2 : r.Stderr = "" <;> simp [h1, h2]

/-- The step loop emits no separator event. -/
theorem sep_notin_runLoop (ff : Bool) (exec : String → Result × Option String) :
    ∀ (s : List String) (idx : Nat), Event.sep ∉ (runLoop ff exec idx s).1 := by
  intro s
  induction s with
  | nil => intro idx; simp [runLoop]
  | cons a rest ih =>
    intro idx
    by_cases h : stepFails exec a = true
    · cases ff with
      | true => simp [runLoop, h]
      | false => simp [runLoop, h, ih (idx + 1), sep_notin_outEvents]
    · simp [runLoop, h, ih (idx + 1), sep_notin_outEvents]

/-- The step loop returns early exactly when fail-fast is on and some
step fails. -/
theorem runLoop_abort_iff (ff : Bool) (exec : String → Result × Option String) :
    ∀ (s : List String) (idx : Nat),
      (runLoop ff exec idx s).2.2 = none ↔
        (ff = false ∨ ∀ x ∈ s, stepFails exec x = false) := by
  intro s
  induction s with
  | nil => intro idx; simp [runLoop]
  | cons a rest ih =>
    intro idx
    by_cases h : stepFails exec a = true
    · cases ff with
      | true => simp [runLoop, h]
      | false => simp [runLoop, h, ih (idx + 1)]
    · have h' : stepFails exec a = false := by simpa using h
      simp [runLoop, h', ih (idx + 1)]

/-- C5 (amended): the trailing separator is emitted exactly when the
step loop runs to completion — always when fail-fast is off, and when
every step passes otherwise. A fail-fast early abort returns before the
separator is printed. -/
theorem c5_separator_iff (op : Operation) (exec : String → Result × Option String)
    (ambient : List String) :
    Event.sep ∈ (op.Run exec ambient).1 ↔
      (op.FailFast = false ∨ ∀ x ∈ op.Steps.getD [], stepFails exec x = false) := by
  unfold Operation.Run
  have hiff := runLoop_abort_iff op.FailFast exec (op.Steps.getD []) 0
  have hns := sep_notin_runLoop op.FailFast exec (op.Steps.getD []) 0
  rcases hr : runLoop op.FailFast exec 0 (op.Steps.getD []) with ⟨evts, failed, ab⟩
  rw [hr] at hiff hns
  cases ab with
  | none =>
    have hrhs := hiff.mp rfl
    by_cases hf : failed.isEmpty <;> simp [hf, hrhs]
  | some e =>
    have hrhs : ¬ (op.FailFast = false ∨ ∀ x ∈ op.Steps.getD [], stepFails exec x = false) := by
      intro hc
      exact absurd (hiff.mpr hc) (by simp)
    simp [hrhs, hns]

/-- C5 counterexample: the claim as stated — the separator is emitted
regardless of outcome, including on a fail-fast early abort — fails on
the operation `failFast: true, steps: [false]` under an executor where
`false` exits 1: the run aborts with an error and no separator event is
emitted. -/
theorem c5_counterexample :
    Event.sep ∉ ((⟨true, [], some ["false"]⟩ : Operation).Run execFail []).1 ∧
    ((⟨true, [], some ["false"]⟩ : Operation).Run execFail []).2.isSome = true := by
  decide

/-- Fail-fast loop behaviour: with every step before `c` passing and `c`
failing, the loop executes exactly the prefix up to and including `c`
and returns the fail-fast error for `c`. -/
theorem runLoop_failfast_spec (exec : String → Result × Option String) (c : String)
    (hfail : stepFails exec c = true) :
    ∀ (pre : List String), (∀ x ∈ pre, stepFails exec x = false) →
      ∀ (post : List String) (idx : Nat),
        execCmds (runLoop true exec idx (pre ++ c :: post)).1 = pre ++ [c] ∧
        (runLoop true exec idx (pre ++ c :: post)).2.2 =
          some (mkFailMsg c (exec c).1.ExitCode (exec c).2) := by
  intro pre
  induction pre with
  | nil =>
    intro _ post idx
    constructor <;> simp [runLoop, hfail]
  | cons a pre ih =>
    intro hpre post idx
    have h0 : stepFails exec a = false := hpre a (List.mem_cons_self a pre)
    have hrest := ih (fun x hx => hpre x (List.mem_cons_of_mem a hx)) post (idx + 1)
    constructor
    · simp [List.cons_append, runLoop, h0, hrest.1]
    · simp [List.cons_append, runLoop, h0, hrest.2]

/-- C2: with fail-fast on, when the step at index `k = pre.length` is
the first to fail (transport error or nonzero exit), `Operation.Run`
executes exactly the steps at indices `0` through `k` — later steps are
never passed to the executor — and returns the error naming the failing
command and its exit code, wrapping the underlying error. -/
theorem c2_failfast_executes_prefix (op : Operation)
    (exec : String → Result × Option String) (ambient : List String)
    (pre post : List String) (c : String)
    (hs : op.Steps.getD [] = pre ++ c :: post)
    (hff : op.FailFast = true)
    (hpre : ∀ x ∈ pre, stepFails exec x = false)
    (hfail : stepFails exec c = true) :
    execCmds (op.Run exec ambient).1 = pre ++ [c] ∧
    (op.Run exec ambient).2 = some (mkFailMsg c (exec c).1.ExitCode (exec c).2) := by
  obtain ⟨h1, h2⟩ := runLoop_failfast_spec exec c hfail pre hpre post 0
  unfold Operation.Run
  rw [hs, hff]
  rcases hr : runLoop true exec 0 (pre ++ c :: post) with ⟨evts, failed, ab⟩
  rw [hr] at h1 h2
  cases ab with
  | none => simp at h2
  | some e =>
    simp only [Option.some.injEq] at h2
    constructor
    · simpa using h1
    · simp [h2]

/-- Witness for C2: the specification scenario `failFast: true,
steps: [echo a, exit 2, echo b]` under `exec2` — `echo b` never reaches
the executor and the error names `exit 2` and exit code 2. -/
theorem c2_witness :
    execCmds ((⟨true, [], some ["echo a", "exit 2", "echo b"]⟩ : Operation).Run exec2 []).1
        = ["echo a", "exit 2"] ∧
    ((⟨true, [], some ["echo a", "exit 2", "echo b"]⟩ : Operation).Run exec2 []).2
        = some (mkFailMsg "exit 2" 2 none) :=
  c2_failfast_executes_prefix ⟨true, [], some ["echo a", "exit 2", "echo b"]⟩ exec2 []
    ["echo a"] ["echo b"] "exit 2" rfl rfl (by decide) (by decide)

/-- Collect-all loop behaviour: with fail-fast off the loop visits every
step exactly once in order, records exactly the failing steps in order,
and never aborts. -/
theorem runLoop_collect_spec (exec : String → Result × Option String) :
    ∀ (s : List String) (idx : Nat),
      execCmds (runLoop false exec idx s).1 = s ∧
      (runLoop false exec idx s).2.1 = s.filter (stepFails exec) ∧
      (runLoop false exec idx s).2.2 = none := by
  intro s
  induction s with
  | nil => intro idx; simp [runLoop]
  | cons a rest ih =>
    intro idx
    obtain ⟨ih1, ih2, ih3⟩ := ih (idx + 1)
    by_cases h : stepFails exec a = true
    · refine ⟨?_, ?_, ?_⟩ <;>
        simp [runLoop, h, ih1, ih2, ih3, List.filter_cons]
    · have h' : stepFails exec a = false := by simpa using h
      refine ⟨?_, ?_, ?_⟩ <;>
        simp [runLoop, h', ih1, ih2, ih3, List.filter_cons]

/-- C3: with fail-fast off, `Operation.Run` passes every step to the
executor exactly once, in order, regardless of earlier failures, and
returns the aggregate error naming exactly the failing steps when there
are any, and success otherwise. -/
theorem c3_collect_all (op : Operation) (exec : String → Result × Option String)
    (ambient : List String) (s : List String)
    (hs : op.Steps.getD [] = s) (hff : op.FailFast = false) :
    execCmds (op.Run exec ambient).1 = s ∧
    (op.Run exec ambient).2 =
      (if (s.filter (stepFails exec)).isEmpty then none
       else some ("failed to run steps: " ++ fmtSteps (s.filter (stepFails exec)))) := by
  obtain ⟨h1, h2, h3⟩ := runLoop_collect_spec exec s 0
  unfold Operation.Run
  rw [hs, hff]
  rcases hr : runLoop false exec 0 s with ⟨evts, failed, ab⟩
  rw [hr] at h1 h2 h3
  simp only at h1 h2 h3
  subst h3
  subst h2
  by_cases hf : (s.filter (stepFails exec)).isEmpty <;>
    simp [hf, h1]

/-- Witness for C3: the specification scenario `failFast: false,
steps: [true, false, true]` under `exec3` — all three steps run and the
aggregate error names exactly the second step. -/
theorem c3_witness :
    execCmds ((⟨false, [], some ["true", "false", "true"]⟩ : Operation).Run exec3 []).1
        = ["true", "false", "true"] ∧
    ((⟨false, [], some ["true", "false", "true"]⟩ : Operation).Run exec3 []).2
        = some ("failed to run steps: " ++ fmtSteps ["false"]) :=
  c3_collect_all ⟨false, [], some ["true", "false", "true"]⟩ exec3 []
    ["true", "false", "true"] rfl rfl

/-- C4 counterexample: the claim as stated — an empty-step run invokes
neither the execute nor the environment-installation capability — fails:
a run over an empty step list succeeds but still makes one `AddEnv`
call. -/
theorem c4_counterexample :
    ((⟨false, [], some []⟩ : Operation).Run exec0 ["HOME=/root"]).2 = none ∧
    (((⟨false, [], some []⟩ : Operation).Run exec0 ["HOME=/root"]).1.any isAddEnvCall)
        = true := by
  decide

/-- C4 (amended): for every operation whose step list is empty,
`Operation.Run` returns success without passing any command to the
executor, but it still installs the merged environment with exactly one
`AddEnv` call (and emits the separator). -/
theorem c4_empty_steps (op : Operation) (exec : String → Result × Option String)
    (ambient : List String) (h : op.Steps.getD [] = []) :
    (op.Run exec ambient).2 = none ∧
    (op.Run exec ambient).1 = [Event.addEnv (mergedEnv ambient op), Event.sep] := by
  unfold Operation.Run
  rw [h]
  simp [runLoop]

/-- Witness for C4: the amended theorem applied to an empty operation
with an override map. -/
theorem c4_witness :
    ((⟨true, [("CI", "true")], some []⟩ : Operation).Run exec0 ["PATH=/bin"]).2 = none ∧
    ((⟨true, [("CI", "true")], some []⟩ : Operation).Run exec0 ["PATH=/bin"]).1
        = [Event.addEnv (mergedEnv ["PATH=/bin"] ⟨true, [("CI", "true")], some []⟩),
           Event.sep] :=
  c4_empty_steps ⟨true, [("CI", "true")], some []⟩ exec0 ["PATH=/bin"] rfl

/-- C8: the run installs, as its first executor interaction, the merged
environment consisting of the ambient snapshot followed by the override
entries appended after it; the ambient entries are all kept in place
(duplicate keys are not removed) and the ambient snapshot itself is
untouched by the merge. -/
theorem c8_env_merge (op : Operation) (exec : String → Result × Option String)
    (ambient : List String) :
    (op.Run exec ambient).1.head? = some (Event.addEnv (ambient ++ envList op)) ∧
    (mergedEnv ambient op).take ambient.length = ambient ∧
    (mergedEnv ambient op).drop ambient.length = envList op := by
  refine ⟨?_, ?_, ?_⟩
  · unfold Operation.Run
    rcases hr : runLoop op.FailFast exec 0 (op.Steps.getD []) with ⟨evts, failed, ab⟩
    cases ab with
    | none => by_cases hf : failed.isEmpty <;> simp [hf, mergedEnv]
    | some e => simp [mergedEnv]
  · simp [mergedEnv, List.take_left]
  · simp [mergedEnv, List.drop_left]

end DevOps
